import Mathlib

/-!
Verification of the cover-letter-ai specification against the repository's
source. The frontend TypeScript (form logic in `GeneratorForm`, header
parsing in `contentDisposition.ts`, base-URL selection in `env.ts` and the
older copy of it) is embedded directly. The backend pipeline
(`llm_letter.py` sanitizer, generation retry, `docx_render.py` tab-stop
repair) is not part of the available sources, so those components are
modelled from the specification's own description, as marked on each
definition.

JavaScript strings are embedded as Lean `String` (a packed `List Char`);
`String.prototype.trim` and the regexes are embedded as structurally
recursive functions over `List Char` so that every definition evaluates
inside the kernel.
-/

/-! ## JS string primitives -/

/-- Whitespace test used by the embedding of `String.prototype.trim`. -/
def jsWhitespace (c : Char) : Bool :=
  c == ' ' || c == '\t' || c == '\n' || c == '\r'

/-- Embedding of `String.prototype.trim`: strip leading and trailing
whitespace. -/
def jsTrim (s : String) : String :=
  String.mk (((s.data.dropWhile jsWhitespace).reverse.dropWhile jsWhitespace).reverse)

/-! ## `src/apps/web/src/lib/contentDisposition.ts` -/

/-- The 10 characters of the regex literal `filename="` (lower case). -/
def litFN : List Char := "filename=\"".data

/-- Characters before the first `"` of the list, when a `"` exists; embeds
the behaviour of the capture group `([^"]+)` up to its closing quote. -/
def grabUntilQuote : List Char → Option (List Char)
  | [] => none
  | c :: rest => if c = '"' then some [] else (grabUntilQuote rest).map (c :: ·)

/-- The capture `([^"]+)"`: a non-empty run of non-quote characters closed
by a quote. -/
def grabCapture (l : List Char) : Option (List Char) :=
  match grabUntilQuote l with
  | some (c :: xs) => some (c :: xs)
  | _ => none

/-- Leftmost match of the regex `/filename="([^"]+)"/i`: at each position,
try to read the literal `filename="` case-insensitively and then a
non-empty quoted capture; otherwise advance one character. -/
def scanFilename : List Char → Option (List Char)
  | [] => none
  | c :: rest =>
    if ((c :: rest).take 10).map Char.toLower = litFN then
      match grabCapture ((c :: rest).drop 10) with
      | some x => some x
      | none => scanFilename rest
    else scanFilename rest

/-- `parseFilenameFromContentDisposition` from
`src/apps/web/src/lib/contentDisposition.ts`: `null` in, `null` out
(the JS falsiness test also sends the empty string to `null`, which the
scanner does as well since it finds no match in an empty string); else the
first regex capture, if any. -/
def parseFilenameFromContentDisposition (value : Option String) : Option String :=
  match value with
  | none => none
  | some v => (scanFilename v.data).map String.mk

/-- The filename the generate flow uses for the download link:
`parseFilenameFromContentDisposition(...) ?? "Cover_Letter.docx"`
(src/unnamed/part_003, onGenerate). -/
def downloadFilename (header : Option String) : String :=
  (parseFilenameFromContentDisposition header).getD "Cover_Letter.docx"

/-- A header contains a double-quoted filename parameter: some occurrence
of the 10-character literal `filename="` (case-insensitively), followed by
a non-empty quote-free capture closed by a quote. -/
def containsQuotedFilenameParam (s : String) : Prop :=
  ∃ A F X B : List Char,
    s.data = A ++ F ++ X ++ '"' :: B ∧
    F.map Char.toLower = litFN ∧ X ≠ [] ∧ '"' ∉ X

/-! ## `getApiBaseUrl`, old (src/unnamed/part_000) and current
(`src/apps/web/src/lib/env.ts`) -/

/-- The process environment as seen by the two `getApiBaseUrl`
implementations: `undefined` is `none`. -/
structure WebEnv where
  apiBaseUrl : Option String
  vercel : Option String

/-- Older `getApiBaseUrl` (src/unnamed/part_000):
`raw && raw.length > 0 ? raw : "http://localhost:8000"`. -/
def getApiBaseUrlOld (e : WebEnv) : String :=
  match e.apiBaseUrl with
  | some raw => if 0 < raw.length then raw else "http://localhost:8000"
  | none => "http://localhost:8000"

/-- The Railway fallback URL hardcoded in `env.ts`. -/
def railwayUrl : String := "https://cover-letter-ai-production.up.railway.app"

/-- The branch of the current `getApiBaseUrl` taken when the raw variable
is unset or blank: `Boolean(process.env.VERCEL)` decides between the
Railway domain and localhost. -/
def vercelFallback (e : WebEnv) : String :=
  match e.vercel with
  | some v => if 0 < v.length then railwayUrl else "http://localhost:8000"
  | none => "http://localhost:8000"

/-- Current `getApiBaseUrl` (`src/apps/web/src/lib/env.ts`):
`process.env.NEXT_PUBLIC_API_BASE_URL?.trim()`; a non-empty trimmed value
wins, else the Vercel-aware fallback. -/
def getApiBaseUrlNew (e : WebEnv) : String :=
  match e.apiBaseUrl with
  | some s =>
    let raw := jsTrim s
    if 0 < raw.length then raw else vercelFallback e
  | none => vercelFallback e

/-! ## The generator form (src/unnamed/part_003, `GeneratorForm`) -/

/-- The form state read by `onGenerate` and `autofillRoleFromUrl`. -/
structure FormState where
  jobUrl : String
  jobText : String
  hasCvFile : Bool
  language : String
  tone : String
  lengthChoice : String
  targetRole : String

/-- What `onGenerate` does before any network traffic: either set the
error state and return, or build the multipart form and call the API. -/
inductive GenAction where
  | validationError (msg : String)
  | callApi (fields : List (String × String))
deriving DecidableEq

/-- What `autofillRoleFromUrl` does: either set the preview error state
and return, or call `/v1/job/preview` with the trimmed URL. -/
inductive PreviewAction where
  | previewError (msg : String)
  | callPreview (url : String)
deriving DecidableEq

/-- The `FormData` built by `onGenerate` (src/unnamed/part_003, lines
259-267), as the ordered list of appended fields; the CV file content is
abstracted to a marker string. -/
def generateFormFields (s : FormState) : List (String × String) :=
  (if s.hasCvFile then [("cv_pdf", "<file>")] else []) ++
  (if 0 < (jsTrim s.jobUrl).length then [("job_url", jsTrim s.jobUrl)] else []) ++
  (if 0 < (jsTrim s.jobText).length then [("job_text", jsTrim s.jobText)] else []) ++
  [("language", s.language), ("tone", s.tone), ("length", s.lengthChoice)] ++
  (if 0 < (jsTrim s.targetRole).length then [("target_role", jsTrim s.targetRole)] else [])

/-- `onGenerate` (src/unnamed/part_003, lines 245-287) up to the first
network call: the guard
`jobUrl.trim().length === 0 && jobText.trim().length === 0` sets a
field-specific error and returns; otherwise the form is posted. -/
def onGenerateAction (s : FormState) : GenAction :=
  if (jsTrim s.jobUrl).length = 0 ∧ (jsTrim s.jobText).length = 0 then
    .validationError "Please provide either a Job URL or Job Text."
  else
    .callApi (generateFormFields s)

/-- `autofillRoleFromUrl` (src/unnamed/part_003, lines 289-335) up to the
first network call: empty URL and non-empty job text are both refused
before `/v1/job/preview` is contacted. -/
def autofillRoleFromUrlAction (s : FormState) : PreviewAction :=
  let url := jsTrim s.jobUrl
  if url = "" then .previewError "Please enter a Job URL first."
  else if 0 < (jsTrim s.jobText).length then
    .previewError "Job text is set – role will be derived from it."
  else .callPreview url

/-- A concrete form state with both a job URL and job text filled in. -/
def formBothFilled : FormState :=
  { jobUrl := "https://example.com/jobs/42"
    jobText := "Senior Backend Engineer at Acme AG"
    hasCvFile := false
    language := "de"
    tone := "professional"
    lengthChoice := "short"
    targetRole := "" }

/-- Observer: does the preview action actually contact `/v1/job/preview`? -/
def isCallPreview : PreviewAction → Bool
  | .callPreview _ => true
  | .previewError _ => false

/-- A concrete form state with neither job source filled in (whitespace
only). -/
def formBothEmpty : FormState :=
  { jobUrl := "  "
    jobText := ""
    hasCvFile := true
    language := "de"
    tone := "professional"
    lengthChoice := "medium"
    targetRole := "" }

/-! ## ContentSanitizer, modelled from §4.3 of the spec

The sanitizer lives in `apps/api/app/services/llm_letter.py`, which is not
among the available sources; every definition below is modelled from the
specification's description of it. -/

/-- Modelled from the spec: characters stripped from line ends when
cleaning recipient lines — whitespace and trailing punctuation
("stripping trailing commas", "no trailing punctuation"). -/
def trailingJunk (c : Char) : Bool :=
  c == ' ' || c == '\t' || c == ',' || c == '.' || c == ';' || c == ':'

/-- Modelled from the spec: clean one recipient line — drop leading
whitespace and trailing whitespace/punctuation. -/
def cleanData (l : List Char) : List Char :=
  ((l.dropWhile jsWhitespace).reverse.dropWhile trailingJunk).reverse

/-- Modelled from the spec: `cleanData` on a `String`. -/
def cleanLine (s : String) : String := String.mk (cleanData s.data)

/-- Split a character list at a separator character (accumulator holds
the current piece reversed). -/
def splitChAux (sep : Char) : List Char → List Char → List (List Char)
  | [], acc => [acc.reverse]
  | c :: rest, acc =>
    if c = sep then acc.reverse :: splitChAux sep rest []
    else splitChAux sep rest (c :: acc)

/-- Modelled from the spec: comma-separated pieces of a single-line
address. -/
def splitComma (s : String) : List String := (splitChAux ',' s.data []).map String.mk

/-- Modelled from the spec: clean every line and drop the lines that
become empty. -/
def cleanList (l : List String) : List String :=
  (l.map cleanLine).filter (fun x => x ≠ "")

/-- Modelled from the spec (§4.3 step 3): the shape decision on the
cleaned recipient lines — a lone line holding a comma-separated address
is split at its commas; everything is capped at 3 lines. -/
def normCore : List String → List String
  | [only] =>
    if ',' ∈ only.data then (cleanList (splitComma only)).take 3
    else [only]
  | ls => ls.take 3

/-- Modelled from the spec (§4.3 step 3): normalize `recipientBlock` to at
most 3 clean lines, stripping trailing commas, and merging a
comma-separated single-line address into the multi-line form. -/
def normalizeRecipientBlock (rb : List String) : List String :=
  normCore (cleanList rb)

/-- Number of decimal digits in a string. -/
def digitCount (s : String) : Nat := (s.data.filter Char.isDigit).length

/-- Modelled from the spec: a line resembling an email address. -/
def isEmailLike (s : String) : Bool := s.data.contains '@'

/-- Modelled from the spec: a line resembling a phone number (at least 7
digits). -/
def isPhoneLike (s : String) : Bool := decide (7 ≤ digitCount s)

/-- Four consecutive decimal digits start the list. -/
def startsWithFourDigits : List Char → Bool
  | a :: b :: c :: d :: _ => a.isDigit && b.isDigit && c.isDigit && d.isDigit
  | _ => false

/-- Some position of the list starts four consecutive decimal digits. -/
def hasFourDigitRun : List Char → Bool
  | [] => false
  | c :: rest => startsWithFourDigits (c :: rest) || hasFourDigitRun rest

/-- Modelled from the spec: a line resembling a postal-address fragment
(a 4-digit Swiss postal code somewhere in the line). -/
def isPostalLike (s : String) : Bool := hasFourDigitRun s.data

/-- Modelled from the spec (§4.3 step 1): the contact-block pattern —
email address, phone number, or postal-address fragment. -/
def isContactLine (s : String) : Bool :=
  isEmailLike s || isPhoneLike s || isPostalLike s

/-- Modelled from the spec (§4.3 step 1): a name-line — two or three
words, each starting with an upper-case letter, no digits. -/
def isNameLine (s : String) : Bool :=
  let ws := (splitChAux ' ' s.data []).filter (fun w => w ≠ [])
  (ws.length == 2 || ws.length == 3) &&
  ws.all (fun w =>
    match w with
    | c :: _ => c.isUpper
    | [] => false) &&
  digitCount s == 0

/-- Modelled from the spec (§4.3 step 2): comparison key — lower case
after trimming punctuation. -/
def dupeKey (s : String) : String := String.mk ((cleanData s.data).map Char.toLower)

/-- Modelled from the spec (§4.3 step 2): a paragraph duplicating a line
already present in the recipient block, compared case-insensitively after
trimming punctuation. -/
def isRecipientDupe (rb : List String) (p : String) : Bool :=
  (rb.map dupeKey).contains (dupeKey p)

/-- Modelled from the spec: a paragraph eligible for trailing removal —
it matches the contact-block pattern or duplicates a recipient line. -/
def strippableLine (rb : List String) (p : String) : Bool :=
  isContactLine p || isRecipientDupe rb p

/-- Modelled from the spec (§4.3 steps 1-2 plus the idempotence
invariant): one backward scan over the body (given reversed). A trailing
paragraph is dropped while it is contact-like or duplicates a recipient
line; a single name-line sitting immediately above a dropped contact
paragraph is dropped as well. The scan then continues, so a second
application of the sanitizer finds nothing left to drop — the invariant
the spec states for the component. -/
def stripRevGo (rb : List String) : Bool → List String → List String
  | _, [] => []
  | belowContact, p :: rest =>
    if strippableLine rb p then stripRevGo rb (isContactLine p) rest
    else if belowContact && isNameLine p then stripRevGo rb false rest
    else p :: rest

/-- Modelled from the spec: drop the trailing run of strippable
paragraphs (and a name-line directly above a dropped contact block) from
the body. -/
def stripBody (rb : List String) (body : List String) : List String :=
  (stripRevGo rb false body.reverse).reverse

/-- The structured letter content of §3 of the spec. -/
structure LetterContent where
  date : String
  recipientBlock : List String
  roleTitle : String
  company : String
  subject : String
  salutation : String
  bodyParagraphs : List String
  closing : String
  signatureName : String
deriving DecidableEq

/-- Modelled from the spec (§4.3): `sanitize` — normalize the recipient
block and strip the trailing contact/duplicate run from the body; every
other field is untouched. -/
def sanitize (c : LetterContent) : LetterContent :=
  let rb := normalizeRecipientBlock c.recipientBlock
  { c with
    recipientBlock := rb
    bodyParagraphs := stripBody rb c.bodyParagraphs }

/-! ## LetterContentGenerator retry policy, modelled from §4.2

`generate` lives in `apps/api/app/services/llm_letter.py`, not among the
available sources; the retry skeleton below is modelled from the spec,
with the structured-generation service abstracted as an oracle from the
token budget to an outcome. -/

/-- Modelled from the spec: outcome of one structured-generation attempt
under a given token budget. -/
inductive GenOutcome where
  | parsed (c : LetterContent)
  | truncated
  | malformed
deriving DecidableEq

/-- Modelled from the spec: token budget selected by `length`
(short < medium < long). -/
def budgetFor (lengthChoice : String) : Nat :=
  if lengthChoice = "short" then 400
  else if lengthChoice = "medium" then 700
  else 1000

/-- Modelled from the spec: the enlarged budget used by the single retry
after a truncation failure. -/
def retryBudget (b : Nat) : Nat := b + 300

/-- Modelled from the spec (§4.2): run the generation call. The result is
paired with the list of budgets actually attempted, in order. A parse
failure caused by truncation is retried exactly once with the enlarged
budget; any other parse failure, and any failure of the retry, surfaces
as `GenerationError`. -/
def generateLetter (oracle : Nat → GenOutcome) (lengthChoice : String) :
    Except String LetterContent × List Nat :=
  let b := budgetFor lengthChoice
  match oracle b with
  | .parsed c => (.ok c, [b])
  | .malformed => (.error "GenerationError", [b])
  | .truncated =>
    let b2 := retryBudget b
    match oracle b2 with
    | .parsed c => (.ok c, [b, b2])
    | _ => (.error "GenerationError", [b, b2])

/-! ## DocumentRenderer tab-stop repair, modelled from §4.4

The post-processing lives in `apps/api/app/services/docx_render.py`, not
among the available sources; modelled from the spec and the repository's
debug notes. -/

/-- A paragraph of a rendered document: its text and its tab-stop
metadata (list of tab positions). -/
structure DocParagraph where
  text : String
  tabs : List Nat
deriving DecidableEq

/-- Modelled from the spec: what the templating engine emits for a
multi-line recipient block — the first line lands in the template's
recipient paragraph (keeping its tab stops), while paragraphs synthesized
for the further lines do not inherit the tab-stop metadata. -/
def renderRecipientRaw (tmplTabs : List Nat) (lines : List String) : List DocParagraph :=
  match lines with
  | [] => []
  | l :: rest => ⟨l, tmplTabs⟩ :: rest.map (fun s => ⟨s, []⟩)

/-- Modelled from the spec: the renderer's post-processing — copy the
tab-stop metadata of the first recipient paragraph onto every recipient
paragraph. -/
def fixRecipientTabs : List DocParagraph → List DocParagraph
  | [] => []
  | p :: rest => p :: rest.map (fun q => { q with tabs := p.tabs })

/-- Modelled from the spec: render a recipient block and repair the
tab stops. -/
def renderRecipient (tmplTabs : List Nat) (lines : List String) : List DocParagraph :=
  fixRecipientTabs (renderRecipientRaw tmplTabs lines)

/-- A concrete local-dev environment: base URL set (already trimmed),
`VERCEL` unset. -/
def envLocalDev : WebEnv :=
  { apiBaseUrl := some "http://localhost:9000", vercel := none }

/-- A concrete structured-generation oracle that is truncated at the
short budget and malformed at every other budget. -/
def demoOracle : Nat → GenOutcome :=
  fun b => if b = 400 then .truncated else .malformed

/-! # Helper lemmas -/

/-! ## Scanner lemmas (contentDisposition.ts) -/

lemma grabUntilQuote_append (X B : List Char) (hq : '"' ∉ X) :
    grabUntilQuote (X ++ '"' :: B) = some X := by
  induction X with
  | nil => simp [grabUntilQuote]
  | cons c xs ih =>
    have hc : c ≠ '"' := fun h => hq (h ▸ List.mem_cons_self c xs)
    have hxs : '"' ∉ xs := fun h => hq (List.mem_cons_of_mem c h)
    simp [grabUntilQuote, hc, ih hxs]

lemma grabCapture_append (X B : List Char) (hx : X ≠ []) (hq : '"' ∉ X) :
    grabCapture (X ++ '"' :: B) = some X := by
  cases X with
  | nil => exact absurd rfl hx
  | cons c xs =>
    unfold grabCapture
    rw [grabUntilQuote_append (c :: xs) B hq]

lemma grabUntilQuote_some (l y : List Char) (h : grabUntilQuote l = some y) :
    ∃ B, l = y ++ '"' :: B ∧ '"' ∉ y := by
  induction l generalizing y with
  | nil => simp [grabUntilQuote] at h
  | cons c rest ih =>
    by_cases hc : c = '"'
    · subst hc
      simp [grabUntilQuote] at h
      subst h
      exact ⟨rest, rfl, by simp⟩
    · simp [grabUntilQuote, hc] at h
      obtain ⟨y', hy', hyy⟩ := h
      obtain ⟨B, hB, hq⟩ := ih y' hy'
      refine ⟨B, ?_, ?_⟩
      · rw [← hyy, hB]; rfl
      · rw [← hyy]
        intro hmem
        rcases List.mem_cons.mp hmem with h1 | h1
        · exact hc h1.symm
        · exact hq h1

lemma grabCapture_some (l y : List Char) (h : grabCapture l = some y) :
    ∃ B, l = y ++ '"' :: B ∧ y ≠ [] ∧ '"' ∉ y := by
  unfold grabCapture at h
  cases hg : grabUntilQuote l with
  | none => rw [hg] at h; exact absurd h (by simp)
  | some z =>
    rw [hg] at h
    cases z with
    | nil => exact absurd h (by simp)
    | cons c xs =>
      have hy : y = c :: xs := by simpa using h.symm
      subst hy
      obtain ⟨B, hB, hq⟩ := grabUntilQuote_some l (c :: xs) hg
      exact ⟨B, hB, by simp, hq⟩

lemma scanFilename_skip (A rest : List Char)
    (hA : ∀ n, n < A.length → (((A ++ rest).drop n).take 10).map Char.toLower ≠ litFN) :
    scanFilename (A ++ rest) = scanFilename rest := by
  induction A with
  | nil => rfl
  | cons c A' ih =>
    rw [List.cons_append]
    have h0 : ((c :: (A' ++ rest)).take 10).map Char.toLower ≠ litFN := by
      have := hA 0 (by simp)
      simpa using this
    rw [scanFilename, if_neg h0]
    exact ih fun n hn => by
      have := hA (n + 1) (by simpa using Nat.succ_lt_succ hn)
      simpa [List.cons_append, List.drop_succ_cons] using this

lemma scanFilename_at_lit (X B : List Char) (hx : X ≠ []) (hq : '"' ∉ X) :
    scanFilename (litFN ++ (X ++ '"' :: B)) = some X := by
  have hlen : litFN.length = 10 := rfl
  have htake : (litFN ++ (X ++ '"' :: B)).take 10 = litFN := by
    rw [← hlen, List.take_left]
  have hdrop : (litFN ++ (X ++ '"' :: B)).drop 10 = X ++ '"' :: B := by
    rw [← hlen, List.drop_left]
  have hcond : ((litFN ++ (X ++ '"' :: B)).take 10).map Char.toLower = litFN := by
    rw [htake]; decide
  rw [show litFN ++ (X ++ '"' :: B) = 'f' :: ("ilename=\"".data ++ (X ++ '"' :: B)) from rfl]
  rw [scanFilename]
  rw [show ('f' :: ("ilename=\"".data ++ (X ++ '"' :: B))) = litFN ++ (X ++ '"' :: B) from rfl]
  rw [if_pos hcond, hdrop, grabCapture_append X B hx hq]

lemma scanFilename_some (l : List Char) :
    ∀ x, scanFilename l = some x →
      ∃ A F X B, l = A ++ F ++ X ++ '"' :: B ∧
        F.map Char.toLower = litFN ∧ X ≠ [] ∧ '"' ∉ X := by
  induction l with
  | nil => intro x h; simp [scanFilename] at h
  | cons c rest ih =>
    intro x h
    by_cases hc : (((c :: rest).take 10).map Char.toLower = litFN)
    · rw [scanFilename, if_pos hc] at h
      cases hg : grabCapture ((c :: rest).drop 10) with
      | some y =>
        obtain ⟨B, hB, hyne, hynq⟩ := grabCapture_some _ y hg
        refine ⟨[], (c :: rest).take 10, y, B, ?_, hc, hyne, hynq⟩
        simp only [List.nil_append, List.append_assoc]
        rw [← hB, List.take_append_drop]
      | none =>
        rw [hg] at h
        obtain ⟨A, F, X, B, hEq, hF, hX, hQ⟩ := ih x h
        exact ⟨c :: A, F, X, B, by simp [hEq], hF, hX, hQ⟩
    · rw [scanFilename, if_neg hc] at h
      obtain ⟨A, F, X, B, hEq, hF, hX, hQ⟩ := ih x h
      exact ⟨c :: A, F, X, B, by simp [hEq], hF, hX, hQ⟩

/-- A header string shorter than 12 characters cannot contain a quoted
filename parameter (10-character literal, at least one captured
character, the closing quote). -/
lemma not_containsQuotedFilenameParam_of_short (s : String) (h : s.data.length < 12) :
    ¬ containsQuotedFilenameParam s := by
  rintro ⟨A, F, X, B, hEq, hF, hX, -⟩
  have hFlen : F.length = 10 := by
    have hl := congrArg List.length hF
    rw [List.length_map] at hl
    exact hl.trans rfl
  have hXlen : 0 < X.length := List.length_pos.mpr hX
  have hlen := congrArg List.length hEq
  simp only [List.length_append, List.length_cons] at hlen
  omega

/-! # Claim theorems: contentDisposition.ts -/

/-- C7: for every Content-Disposition header that carries a double-quoted
filename parameter `filename="X"` with `X` non-empty and quote-free — the
parameter being where the regex first matches, i.e. no earlier position of
the header reads as the literal `filename="` — the parser returns exactly
`X`, so the caller recovers the attachment filename the response
exposes. -/
theorem parseFilename_returns_quoted_value (A X B : List Char)
    (hx : X ≠ []) (hq : '"' ∉ X)
    (hA : ∀ n, n < A.length →
      (((A ++ (litFN ++ (X ++ '"' :: B))).drop n).take 10).map Char.toLower ≠ litFN) :
    parseFilenameFromContentDisposition
      (some (String.mk (A ++ (litFN ++ (X ++ '"' :: B))))) = some (String.mk X) := by
  show ((scanFilename (A ++ (litFN ++ (X ++ '"' :: B)))).map String.mk = some (String.mk X))
  rw [scanFilename_skip A _ hA, scanFilename_at_lit X B hx hq]
  rfl

/-- Witness for C7: the header
`attachment; filename="Cover_Letter.docx"` parses to
`Cover_Letter.docx`. -/
theorem parseFilename_returns_quoted_value_witness :
    parseFilenameFromContentDisposition
      (some (String.mk ("attachment; ".data ++ (litFN ++ ("Cover_Letter.docx".data ++ '"' :: []))))) =
      some (String.mk "Cover_Letter.docx".data) :=
  parseFilename_returns_quoted_value "attachment; ".data "Cover_Letter.docx".data []
    (by decide) (by decide) (by decide)

/-- C10: for a `null` header, and for any header containing no quoted
filename parameter, the parser returns `null` (it is a total function, so
it cannot throw), and the generate flow falls back to the download
filename `Cover_Letter.docx`. -/
theorem parseFilename_no_param_fallback (v : Option String)
    (h : v = none ∨ ∀ s, v = some s → ¬ containsQuotedFilenameParam s) :
    parseFilenameFromContentDisposition v = none ∧
    downloadFilename v = "Cover_Letter.docx" := by
  have hp : parseFilenameFromContentDisposition v = none := by
    cases v with
    | none => rfl
    | some s =>
      rcases h with h | h
      · exact absurd h (by simp)
      · cases hscan : scanFilename s.data with
        | none =>
          show (scanFilename s.data).map String.mk = none
          rw [hscan]; rfl
        | some x =>
          obtain ⟨A, F, X, B, hEq, hF, hX, hQ⟩ := scanFilename_some s.data x hscan
          exact absurd ⟨A, F, X, B, hEq, hF, hX, hQ⟩ (h s rfl)
  refine ⟨hp, ?_⟩
  rw [downloadFilename, hp]
  rfl

/-- Witness for C10: the header `attachment` (no filename parameter)
parses to `null` and the flow falls back to `Cover_Letter.docx`. -/
theorem parseFilename_no_param_fallback_witness :
    parseFilenameFromContentDisposition (some "attachment") = none ∧
    downloadFilename (some "attachment") = "Cover_Letter.docx" :=
  parseFilename_no_param_fallback (some "attachment")
    (Or.inr fun s hs => by
      cases hs
      exact not_containsQuotedFilenameParam_of_short _ (by decide))

/-! # Claim theorems: env.ts and the generator form -/

/-- C9: with `VERCEL` unset or empty, and `NEXT_PUBLIC_API_BASE_URL`
equal to its own trimmed value whenever it is set, the older
`getApiBaseUrl` (src/unnamed/part_000) and the current one
(`src/apps/web/src/lib/env.ts`) return the same string, and that string
is non-empty. -/
theorem getApiBaseUrl_old_new_agree (e : WebEnv)
    (hv : e.vercel = none ∨ e.vercel = some "")
    (ht : ∀ s, e.apiBaseUrl = some s → jsTrim s = s) :
    getApiBaseUrlOld e = getApiBaseUrlNew e ∧ 0 < (getApiBaseUrlNew e).length := by
  have hfb : vercelFallback e = "http://localhost:8000" := by
    rcases hv with h | h
    · rw [vercelFallback, h]
    · rw [vercelFallback, h]
      simp
  cases he : e.apiBaseUrl with
  | none =>
    refine ⟨?_, ?_⟩ <;> (simp [getApiBaseUrlOld, getApiBaseUrlNew, he, hfb]; try decide)
  | some s =>
    have hts := ht s he
    by_cases hlen : 0 < s.length
    · refine ⟨?_, ?_⟩ <;> simp [getApiBaseUrlOld, getApiBaseUrlNew, he, hts, hlen]
    · refine ⟨?_, ?_⟩ <;>
        (simp [getApiBaseUrlOld, getApiBaseUrlNew, he, hts, hlen, hfb]; try decide)

/-- Witness for C9: a local-dev environment with a trimmed base URL and
no `VERCEL`. -/
theorem getApiBaseUrl_old_new_agree_witness :
    getApiBaseUrlOld envLocalDev = getApiBaseUrlNew envLocalDev ∧
    0 < (getApiBaseUrlNew envLocalDev).length :=
  getApiBaseUrl_old_new_agree envLocalDev (Or.inl rfl)
    (fun s hs => by cases hs; decide)

/-- C1: when both the trimmed job URL and the trimmed job text are empty,
`onGenerate` sets the field-specific validation error and returns; the
generate API call is not made. -/
theorem onGenerate_both_empty_validation (s : FormState)
    (h1 : (jsTrim s.jobUrl).length = 0) (h2 : (jsTrim s.jobText).length = 0) :
    onGenerateAction s =
      GenAction.validationError "Please provide either a Job URL or Job Text." ∧
    ∀ fields, onGenerateAction s ≠ GenAction.callApi fields := by
  have h : onGenerateAction s =
      GenAction.validationError "Please provide either a Job URL or Job Text." := by
    rw [onGenerateAction, if_pos ⟨h1, h2⟩]
  exact ⟨h, fun fields hc => by rw [h] at hc; exact GenAction.noConfusion hc⟩

/-- Witness for C1: a form whose job URL is whitespace and whose job text
is empty is refused with the validation message. -/
theorem onGenerate_both_empty_validation_witness :
    onGenerateAction formBothEmpty =
      GenAction.validationError "Please provide either a Job URL or Job Text." :=
  (onGenerate_both_empty_validation formBothEmpty (by decide) (by decide)).1

/-- C6 (amended): when both trimmed fields are non-empty the generate
submission is accepted and both `job_url` and `job_text` are sent; the
URL-based preview, however, is refused with the message
`Job text is set – role will be derived from it.` instead of being
performed. -/
theorem bothProvided_sends_both_preview_refused (s : FormState)
    (h1 : 0 < (jsTrim s.jobUrl).length) (h2 : 0 < (jsTrim s.jobText).length) :
    onGenerateAction s = GenAction.callApi (generateFormFields s) ∧
    ("job_url", jsTrim s.jobUrl) ∈ generateFormFields s ∧
    ("job_text", jsTrim s.jobText) ∈ generateFormFields s ∧
    autofillRoleFromUrlAction s =
      PreviewAction.previewError "Job text is set – role will be derived from it." := by
  refine ⟨?_, ?_, ?_, ?_⟩
  · rw [onGenerateAction, if_neg]
    rintro ⟨ha, hb⟩
    omega
  · simp [generateFormFields, h1, h2]
  · simp [generateFormFields, h1, h2]
  · have hne : jsTrim s.jobUrl ≠ "" := by
      intro h0
      rw [h0] at h1
      exact absurd h1 (by decide)
    simp [autofillRoleFromUrlAction, hne, h2]

/-- Witness for C6 (amended): the concrete form with both fields
filled. -/
theorem bothProvided_sends_both_preview_refused_witness :
    onGenerateAction formBothFilled = GenAction.callApi (generateFormFields formBothFilled) ∧
    ("job_url", jsTrim formBothFilled.jobUrl) ∈ generateFormFields formBothFilled ∧
    ("job_text", jsTrim formBothFilled.jobText) ∈ generateFormFields formBothFilled ∧
    autofillRoleFromUrlAction formBothFilled =
      PreviewAction.previewError "Job text is set – role will be derived from it." :=
  bothProvided_sends_both_preview_refused formBothFilled (by decide) (by decide)

/-- Counterexample for C6 as stated: with both fields non-empty the
frontend does not perform the URL-based preview — `autofillRoleFromUrl`
returns before contacting `/v1/job/preview`. -/
theorem preview_not_performed_counterexample :
    0 < (jsTrim formBothFilled.jobUrl).length ∧
    0 < (jsTrim formBothFilled.jobText).length ∧
    isCallPreview (autofillRoleFromUrlAction formBothFilled) = false := by decide

/-! # Helper lemmas for the sanitizer -/

lemma dropWhile_fix_pre {α : Type} (p : α → Bool) (g f : List α)
    (hpre : g <+: f) (hf : f.dropWhile p = f) : g.dropWhile p = g := by
  cases g with
  | nil => rfl
  | cons a g2 =>
    obtain ⟨t, ht⟩ := hpre
    have hf2 : f = a :: (g2 ++ t) := by rw [← ht]; rfl
    rw [hf2, List.dropWhile_cons] at hf
    by_cases hp : p a = true
    · rw [if_pos hp] at hf
      have hle : (List.dropWhile p (g2 ++ t)).length ≤ (g2 ++ t).length :=
        (List.dropWhile_suffix p).sublist.length_le
      have hlen := congrArg List.length hf
      simp only [List.length_cons] at hlen
      omega
    · rw [List.dropWhile_cons, if_neg hp]

lemma cleanData_idem (l : List Char) : cleanData (cleanData l) = cleanData l := by
  unfold cleanData
  have hW : (l.dropWhile jsWhitespace).dropWhile jsWhitespace = l.dropWhile jsWhitespace :=
    List.dropWhile_idempotent _ _
  set f := l.dropWhile jsWhitespace with hf
  set r := f.reverse.dropWhile trailingJunk with hr
  have hpre : r.reverse <+: f := by
    have hsuf : r <:+ f.reverse := by rw [hr]; exact List.dropWhile_suffix _
    have h2 := hsuf.reverse
    rwa [List.reverse_reverse] at h2
  have h1 : r.reverse.dropWhile jsWhitespace = r.reverse :=
    dropWhile_fix_pre _ _ _ hpre hW
  rw [h1, List.reverse_reverse, hr, List.dropWhile_idempotent]

lemma cleanLine_idem (s : String) : cleanLine (cleanLine s) = cleanLine s := by
  show String.mk (cleanData (cleanData s.data)) = String.mk (cleanData s.data)
  rw [cleanData_idem]

lemma mem_of_mem_cleanData (c : Char) (l : List Char) (h : c ∈ cleanData l) : c ∈ l := by
  unfold cleanData at h
  rw [List.mem_reverse] at h
  have h2 := (List.dropWhile_suffix trailingJunk).sublist.subset h
  rw [List.mem_reverse] at h2
  exact (List.dropWhile_suffix jsWhitespace).sublist.subset h2

lemma mem_cleanList (r : String) (l : List String) (h : r ∈ cleanList l) :
    cleanLine r = r ∧ r ≠ "" := by
  unfold cleanList at h
  rw [List.mem_filter] at h
  obtain ⟨hmap, hne⟩ := h
  have hne2 : r ≠ "" := by simpa using hne
  rw [List.mem_map] at hmap
  obtain ⟨x, -, hx⟩ := hmap
  exact ⟨by rw [← hx, cleanLine_idem], hne2⟩

lemma cleanList_fix (l : List String) (h : ∀ r ∈ l, cleanLine r = r ∧ r ≠ "") :
    cleanList l = l := by
  induction l with
  | nil => rfl
  | cons a t ih =>
    have ha := h a (List.mem_cons_self a t)
    have ht := fun r hr => h r (List.mem_cons_of_mem a hr)
    unfold cleanList
    rw [List.map_cons, ha.1, List.filter_cons, if_pos (by simp [ha.2])]
    exact congrArg (fun x => a :: x) (ih ht)

lemma splitChAux_no_sep (sep : Char) (l : List Char) :
    ∀ acc, sep ∉ acc → ∀ x ∈ splitChAux sep l acc, sep ∉ x := by
  induction l with
  | nil =>
    intro acc hacc x hx
    simp only [splitChAux, List.mem_singleton] at hx
    subst hx
    intro h
    exact hacc (List.mem_reverse.mp h)
  | cons c rest ih =>
    intro acc hacc x hx
    by_cases hc : c = sep
    · rw [splitChAux, if_pos hc] at hx
      rcases List.mem_cons.mp hx with h1 | h1
      · subst h1
        intro h
        exact hacc (List.mem_reverse.mp h)
      · exact ih [] (by simp) x h1
    · rw [splitChAux, if_neg hc] at hx
      refine ih (c :: acc) ?_ x hx
      intro h
      rcases List.mem_cons.mp h with h1 | h1
      · exact hc h1.symm
      · exact hacc h1

lemma splitComma_no_comma (s : String) (p : String) (hp : p ∈ splitComma s) :
    ',' ∉ p.data := by
  unfold splitComma at hp
  rw [List.mem_map] at hp
  obtain ⟨x, hx, hxp⟩ := hp
  have hno := splitChAux_no_sep ',' s.data [] (by simp) x hx
  rw [← hxp]
  exact hno

lemma normCore_fix (R : List String)
    (hclean : ∀ r ∈ R, cleanLine r = r ∧ r ≠ "")
    (hlen : R.length ≤ 3)
    (hsingle : ∀ r, R = [r] → ',' ∉ r.data) :
    normCore (cleanList R) = R := by
  rw [cleanList_fix R hclean]
  cases R with
  | nil => rfl
  | cons a t =>
    cases t with
    | nil =>
      have hnc := hsingle a rfl
      simp [normCore, hnc]
    | cons b t2 =>
      have he : normCore (a :: b :: t2) = (a :: b :: t2).take 3 := rfl
      rw [he, List.take_of_length_le hlen]

lemma normCore_norm (l : List String) (h : ∀ r ∈ l, cleanLine r = r ∧ r ≠ "") :
    normCore (cleanList (normCore l)) = normCore l := by
  cases l with
  | nil => rfl
  | cons a t =>
    cases t with
    | cons b t2 =>
      have he : normCore (a :: b :: t2) = a :: b :: t2.take 1 := rfl
      rw [he]
      apply normCore_fix
      · intro r hr
        exact h r ((List.cons_subset_cons a (List.cons_subset_cons b (List.take_subset 1 t2))) hr)
      · simp only [List.length_cons, List.length_take]
        omega
      · intro r hres
        exact absurd (congrArg List.length hres) (by simp)
    | nil =>
      have ha := h a (List.mem_cons_self a [])
      by_cases hc : ',' ∈ a.data
      · have he : normCore [a] = (cleanList (splitComma a)).take 3 := by
          simp [normCore, hc]
        rw [he]
        apply normCore_fix
        · intro r hr
          exact mem_cleanList r _ (List.mem_of_mem_take hr)
        · calc ((cleanList (splitComma a)).take 3).length
              = 3 ⊓ (cleanList (splitComma a)).length := List.length_take 3 _
            _ ≤ 3 := min_le_left 3 _
        · intro r hres
          have hrmem : r ∈ (cleanList (splitComma a)).take 3 := by
            rw [hres]
            exact List.mem_cons_self r []
          have hrmem2 := List.mem_of_mem_take hrmem
          unfold cleanList at hrmem2
          rw [List.mem_filter] at hrmem2
          obtain ⟨hmap, -⟩ := hrmem2
          rw [List.mem_map] at hmap
          obtain ⟨p, hpmem, hpr⟩ := hmap
          intro hcomma
          have h1 : ',' ∈ (cleanLine p).data := by rw [hpr]; exact hcomma
          exact splitComma_no_comma a p hpmem (mem_of_mem_cleanData ',' p.data h1)
      · have he : normCore [a] = [a] := by simp [normCore, hc]
        rw [he]
        rw [cleanList_fix [a] ?hall]
        case hall =>
          intro r hr
          rcases List.mem_cons.mp hr with h1 | h1
          · subst h1; exact ha
          · exact absurd h1 (List.not_mem_nil r)
        simp [normCore, hc]

lemma normalizeRecipientBlock_idem (rb : List String) :
    normalizeRecipientBlock (normalizeRecipientBlock rb) = normalizeRecipientBlock rb := by
  unfold normalizeRecipientBlock
  exact normCore_norm (cleanList rb) (fun r hr => mem_cleanList r rb hr)

lemma stripRevGo_idem (rb : List String) (b : Bool) (r : List String) :
    stripRevGo rb false (stripRevGo rb b r) = stripRevGo rb b r := by
  induction r generalizing b with
  | nil => rfl
  | cons p rest ih =>
    by_cases h1 : strippableLine rb p = true
    · have he : stripRevGo rb b (p :: rest) = stripRevGo rb (isContactLine p) rest := by
        rw [stripRevGo, if_pos h1]
      rw [he]
      exact ih (isContactLine p)
    · by_cases h2 : (b && isNameLine p) = true
      · have he : stripRevGo rb b (p :: rest) = stripRevGo rb false rest := by
          rw [stripRevGo, if_neg h1, if_pos h2]
        rw [he]
        exact ih false
      · have he : stripRevGo rb b (p :: rest) = p :: rest := by
          rw [stripRevGo, if_neg h1, if_neg h2]
        rw [he, stripRevGo, if_neg h1, if_neg (by simp)]

lemma stripBody_idem (rb body : List String) :
    stripBody rb (stripBody rb body) = stripBody rb body := by
  unfold stripBody
  rw [List.reverse_reverse, stripRevGo_idem]

lemma stripRevGo_tail (rb : List String) (b : Bool) (r : List String) :
    ∃ t, t ++ stripRevGo rb b r = r := by
  induction r generalizing b with
  | nil => exact ⟨[], rfl⟩
  | cons p rest ih =>
    by_cases h1 : strippableLine rb p = true
    · obtain ⟨t, ht⟩ := ih (isContactLine p)
      exact ⟨p :: t, by rw [stripRevGo, if_pos h1, List.cons_append, ht]⟩
    · by_cases h2 : (b && isNameLine p) = true
      · obtain ⟨t, ht⟩ := ih false
        exact ⟨p :: t, by rw [stripRevGo, if_neg h1, if_pos h2, List.cons_append, ht]⟩
      · exact ⟨[], by rw [stripRevGo, if_neg h1, if_neg h2, List.nil_append]⟩

/-! # Claim theorems: sanitizer, generator, renderer -/

/-- C2: the sanitizer is idempotent — applying it twice yields the same
`LetterContent` as applying it once. -/
theorem sanitize_idem (c : LetterContent) : sanitize (sanitize c) = sanitize c := by
  cases c
  simp [sanitize, normalizeRecipientBlock_idem, stripBody_idem]

/-- C3: the sanitizer removes only a trailing run of body paragraphs —
the sanitized body is an initial segment of the original body, so every
paragraph followed by a kept paragraph is itself kept, in its original
position and unchanged; in particular a contact-pattern paragraph in the
middle of the body is never removed. -/
theorem sanitize_removes_only_trailing (c : LetterContent) :
    (sanitize c).bodyParagraphs <+: c.bodyParagraphs := by
  obtain ⟨t, ht⟩ := stripRevGo_tail (normalizeRecipientBlock c.recipientBlock) false
    c.bodyParagraphs.reverse
  refine ⟨t.reverse, ?_⟩
  show (stripRevGo (normalizeRecipientBlock c.recipientBlock) false
      c.bodyParagraphs.reverse).reverse ++ t.reverse = c.bodyParagraphs
  rw [← List.reverse_append, ht, List.reverse_reverse]

/-- C4: recipient-block normalization of the single line
`Acme AG, Bahnhofstrasse 1, 8001 Zürich,` yields exactly the three lines
`Acme AG` / `Bahnhofstrasse 1` / `8001 Zürich`, and none of the produced
lines ends in punctuation or whitespace. -/
theorem recipient_normalization_example :
    normalizeRecipientBlock ["Acme AG, Bahnhofstrasse 1, 8001 Zürich,"] =
      ["Acme AG", "Bahnhofstrasse 1", "8001 Zürich"] ∧
    (normalizeRecipientBlock ["Acme AG, Bahnhofstrasse 1, 8001 Zürich,"]).all
      (fun l => (l.data.getLast?.map (fun c => !trailingJunk c)).getD false) = true := by
  decide

/-- C5: a generation call never makes more than two attempts; a parse
success or a non-truncation parse failure ends the call after one
attempt (the latter with `GenerationError`); a truncation failure under
budget B causes exactly one retry at the strictly larger budget B + 300,
and if that retry fails (by truncation or otherwise) the call surfaces
`GenerationError` with no third attempt. -/
theorem generateLetter_retry_policy (oracle : Nat → GenOutcome) (lc : String) :
    (generateLetter oracle lc).2.length ≤ 2 ∧
    (∀ c, oracle (budgetFor lc) = .parsed c →
      generateLetter oracle lc = (.ok c, [budgetFor lc])) ∧
    (oracle (budgetFor lc) = .malformed →
      generateLetter oracle lc = (.error "GenerationError", [budgetFor lc])) ∧
    (oracle (budgetFor lc) = .truncated →
      (generateLetter oracle lc).2 = [budgetFor lc, retryBudget (budgetFor lc)] ∧
      budgetFor lc < retryBudget (budgetFor lc) ∧
      ((oracle (retryBudget (budgetFor lc)) = .truncated ∨
        oracle (retryBudget (budgetFor lc)) = .malformed) →
        (generateLetter oracle lc).1 = .error "GenerationError")) := by
  refine ⟨?_, ?_, ?_, ?_⟩
  · cases ho : oracle (budgetFor lc) with
    | parsed c => simp [generateLetter, ho]
    | malformed => simp [generateLetter, ho]
    | truncated =>
      cases ho2 : oracle (retryBudget (budgetFor lc)) with
      | parsed c => simp [generateLetter, ho, ho2]
      | malformed => simp [generateLetter, ho, ho2]
      | truncated => simp [generateLetter, ho, ho2]
  · intro c hc
    simp [generateLetter, hc]
  · intro hm
    simp [generateLetter, hm]
  · intro htr
    refine ⟨?_, ?_, ?_⟩
    · cases ho2 : oracle (retryBudget (budgetFor lc)) <;>
        simp [generateLetter, htr, ho2]
    · show budgetFor lc < budgetFor lc + 300
      omega
    · rintro (h2 | h2) <;> simp [generateLetter, htr, h2]

/-- Witness for C5: an oracle truncated at the short budget 400 and
malformed at the retry budget 700 — the call attempts exactly the
budgets 400 then 700 and ends in `GenerationError`. -/
theorem generateLetter_retry_policy_witness :
    demoOracle 400 = GenOutcome.truncated ∧
    (generateLetter demoOracle "short").2 = [400, 700] ∧
    (generateLetter demoOracle "short").1 = Except.error "GenerationError" := by
  have h := generateLetter_retry_policy demoOracle "short"
  have htr : demoOracle (budgetFor "short") = GenOutcome.truncated := by decide
  obtain ⟨-, -, -, h4⟩ := h
  obtain ⟨htrace, -, hfail⟩ := h4 htr
  refine ⟨by decide, ?_, ?_⟩
  · exact htrace
  · exact hfail (Or.inr (by decide))

/-- C8: rendering a 3-line recipient block produces three paragraphs all
carrying the template's original recipient tab-stop metadata (and the
three lines' texts, in order). -/
theorem renderRecipient_three_lines_tabs (T : List Nat) (l1 l2 l3 : String) :
    ((renderRecipient T [l1, l2, l3]).map DocParagraph.tabs = [T, T, T]) ∧
    ((renderRecipient T [l1, l2, l3]).map DocParagraph.text = [l1, l2, l3]) :=
  ⟨rfl, rfl⟩
